import Mathlib

/-!
Shallow embedding of the Polymarket insider-detection bot (`src/main.py`,
class `PolymarketInsiderBot`): the wallet-history cache `get_wallet_history`
(lines 231-257), the scoring function `calculate_insider_score`
(lines 314-373) and the per-market analysis `analyze_trades` (lines 259-312).

Modelling conventions:
- timestamps are integer seconds on a single timeline (`datetime` values);
  `datetime.now()` is passed explicitly as a `now : Int` parameter;
- money amounts (`size`, `price`, aggregated bet sizes) are rationals,
  standing for the Python floats;
- a field that Python would obtain from a fallible parse
  (`datetime.fromisoformat`, `float`) is an `Option`: `none` models the
  parse raising;
- a function that can raise returns an `Option` result; `none` models the
  exception propagating to the caller (in `check_insider_activity` the
  blanket `except` at line 170 then abandons the whole scan cycle);
- the dead local `current_price` of `analyze_trades` (line 264) is unused
  by the rest of the function and is not modelled; the `market` dict is
  passed through opaquely as a string, since the scoring code never reads
  it.
-/

set_option maxRecDepth 100000

/-- A raw trade record as returned by the trades feed and consumed by
`analyze_trades`.  `timestamp = none` models an ISO string that
`datetime.fromisoformat` fails to parse, and `size`/`price = none` model
values on which `float(...)` raises (`main.py` lines 270-277). -/
structure RawTrade where
  timestamp : Option Int
  maker : String
  size : Option ℚ
  price : Option ℚ
  market : String
deriving DecidableEq

/-- A trade of a wallet's stored history; the scoring code reads only its
`market` (line 351) and its `timestamp` (lines 236, 252). -/
structure HistTrade where
  market : String
  timestamp : Int
deriving DecidableEq

/-- The dict built by `get_wallet_history` (lines 234-237, 250-253, 257):
`trades` and `first_trade_date`. -/
structure WalletInfo where
  trades : List HistTrade
  first_trade_date : Option Int
deriving DecidableEq

/-- The dict returned by `calculate_insider_score` (lines 368-373). -/
structure ScoreResult where
  probability : ℕ
  score : ℕ
  max_score : ℕ
  reasons : List String
deriving DecidableEq

/-- The market dict is passed around but never read by the scoring code;
it is modelled opaquely by its identifier. -/
abbrev Market := String

/-- The `self.wallet_history` dict (line 24), as an insertion-ordered
association list from wallet address to stored trade list. -/
abbrev Cache := List (String × List HistTrade)

/-- Python dict lookup (`wallet in self.wallet_history` /
`self.wallet_history[wallet]`). -/
def dictFind : Cache → String → Option (List HistTrade)
  | [], _ => none
  | (k, v) :: rest, w => if k = w then some v else dictFind rest w

/-- `min(t['timestamp'] for t in trades) if trades else None`
(lines 236 and 252). -/
def firstTradeDate (trades : List HistTrade) : Option Int :=
  (trades.map HistTrade.timestamp).min?

/-- The wallet-info dict `{'trades': trades, 'first_trade_date': ...}` built
identically in the cache-hit branch (lines 234-237) and the fetch-success
branch (lines 250-253). -/
def walletInfoOf (trades : List HistTrade) : WalletInfo :=
  { trades := trades, first_trade_date := firstTradeDate trades }

/-- `get_wallet_history` (lines 231-257).  `fetched = none` models a network
error or a non-200 response of the wallet-trades request; `fetched = some l`
models a 200 response with body `l`.  Returns the wallet-info dict and the
updated `self.wallet_history` cache. -/
def get_wallet_history (cache : Cache) (wallet : String)
    (fetched : Option (List HistTrade)) : WalletInfo × Cache :=
  match dictFind cache wallet with
  | some ts => (walletInfoOf ts, cache)
  | none =>
    match fetched with
    | some trades => (walletInfoOf trades, (wallet, trades) :: cache)
    | none => ({ trades := [], first_trade_date := none }, cache)

/-- `self.MIN_BET_SIZE = 1000` (line 28). -/
def MIN_BET_SIZE : ℚ := 1000

/-- `self.NEW_WALLET_DAYS = 90` (line 30). -/
def NEW_WALLET_DAYS : Int := 90

/-- `(datetime.now() - first_trade).days` (line 329): Python
`timedelta.days` floors towards minus infinity. -/
def daysBetween (now ts : Int) : Int := (now - ts).fdiv 86400

/-- The `.hour` of a timestamp (line 361), with the timeline in seconds. -/
def hourOf (ts : Int) : Int := (ts.emod 86400).fdiv 3600

/-! The signal strings appended to `reasons`.  The source interpolates the
bet amount or counts into some of them; the constant text identifying the
signal is kept, the interpolated number is dropped. -/

def reason_wallet_new : String := "Wallet cree specifiquement pour ce trade"

def reason_wallet_very_recent : String := "Wallet tres recent (moins de 5 trades)"

def reason_wallet_recent : String := "Wallet recent (moins de 90 jours)"

def reason_bet_massive : String := "Mise massive"

def reason_bet_large : String := "Grosse mise"

def reason_bet_significant : String := "Mise significative"

def reason_bet_medium : String := "Mise moyenne"

def reason_focus_single : String := "100 pourcent focus sur ce marche uniquement"

def reason_focus_limited : String := "Focus limite"

def reason_timing : String := "Trade a heure suspecte"

/-- Factor 1, new wallet, 40 points (lines 320-332). -/
def factor1 (now : Int) (wallet_info : WalletInfo) : ℕ × List String :=
  if wallet_info.trades.length ≤ 1 then (40, [reason_wallet_new])
  else if wallet_info.trades.length ≤ 5 then (25, [reason_wallet_very_recent])
  else
    match wallet_info.first_trade_date with
    | some ftd =>
      if daysBetween now ftd < NEW_WALLET_DAYS then (20, [reason_wallet_recent])
      else (0, [])
    | none => (0, [])

/-- Factor 2, large bet size, 30 points (lines 334-347); the `else` branch
always contributes 10 points and a reason. -/
def factor2 (bet_size : ℚ) : ℕ × List String :=
  if 50000 < bet_size then (30, [reason_bet_massive])
  else if 20000 < bet_size then (20, [reason_bet_large])
  else if 10000 < bet_size then (15, [reason_bet_significant])
  else (10, [reason_bet_medium])

/-- Factor 3, single-market focus, 20 points (lines 349-357);
`unique_markets = len(set(t.get('market','') for t in wallet_info['trades']))`. -/
def factor3 (wallet_info : WalletInfo) : ℕ × List String :=
  if (wallet_info.trades.map HistTrade.market).dedup.length = 1 then
    (20, [reason_focus_single])
  else if (wallet_info.trades.map HistTrade.market).dedup.length ≤ 3 then
    (10, [reason_focus_limited])
  else (0, [])

/-- Factor 4, timing, 10 points (lines 359-364). -/
def factor4 (ts0 : Int) : ℕ × List String :=
  if (0 ≤ hourOf ts0 ∧ hourOf ts0 ≤ 6) ∨ (22 ≤ hourOf ts0 ∧ hourOf ts0 ≤ 23) then
    (10, [reason_timing])
  else (0, [])

/-- `calculate_insider_score` (lines 314-373).  The four factors accumulate
`score`, `max_score` (invariably 40+30+20+10) and `reasons` in order.
Returns `none` when the Python code raises: `trades[0]` on an empty list, or
`datetime.fromisoformat` on an unparseable `trades[0]` timestamp (line 361).
`probability = int((score / max_score) * 100)` is modelled with exact
truncating division. -/
def calculate_insider_score (now : Int) (wallet_info : WalletInfo)
    (bet_size : ℚ) (market : Market) (trades : List RawTrade) :
    Option ScoreResult :=
  match trades.head? with
  | none => none
  | some t0 =>
    match t0.timestamp with
    | none => none
    | some ts0 =>
      some { probability :=
               ((factor1 now wallet_info).1 + (factor2 bet_size).1 +
                (factor3 wallet_info).1 + (factor4 ts0).1) * 100 / (40 + 30 + 20 + 10),
             score := (factor1 now wallet_info).1 + (factor2 bet_size).1 +
               (factor3 wallet_info).1 + (factor4 ts0).1,
             max_score := 40 + 30 + 20 + 10,
             reasons := (factor1 now wallet_info).2 ++ (factor2 bet_size).2 ++
               (factor3 wallet_info).2 ++ (factor4 ts0).2 }

/-- One entry of the `wallet_bets` defaultdict (line 268):
`{'size': ..., 'trades': [...]}`. -/
structure WalletBet where
  size : ℚ
  trades : List RawTrade
deriving DecidableEq

/-- `wallet_bets[wallet]['size'] += size * price` and
`wallet_bets[wallet]['trades'].append(trade)` (lines 279-280) on an
insertion-ordered dict. -/
def addBet : List (String × WalletBet) → String → ℚ → RawTrade →
    List (String × WalletBet)
  | [], w, usd, t => [(w, ⟨usd, [t]⟩)]
  | (k, b) :: rest, w, usd, t =>
    if k = w then (k, ⟨b.size + usd, b.trades ++ [t]⟩) :: rest
    else (k, b) :: addBet rest w usd t

/-- The grouping loop of `analyze_trades` (lines 267-280): parse the
timestamp (`none` makes `fromisoformat` raise, aborting the batch), skip
trades older than one hour, then parse `size` and `price` (`none` makes
`float` raise).  The order matters: a stale trade is skipped before its
`size` is parsed. -/
def groupTrades (now : Int) : List RawTrade → List (String × WalletBet) →
    Option (List (String × WalletBet))
  | [], acc => some acc
  | t :: rest, acc =>
    match t.timestamp with
    | none => none
    | some ts =>
      if ts < now - 3600 then groupTrades now rest acc
      else
        match t.size, t.price with
        | some sz, some pr => groupTrades now rest (addBet acc t.maker (sz * pr) t)
        | _, _ => none

/-- The dict appended to `insider_signals` (lines 302-310). -/
structure InsiderSignal where
  market : Market
  wallet : String
  bet_size : ℚ
  trades : List RawTrade
  wallet_info : WalletInfo
  score : ScoreResult
  timestamp : Int
deriving DecidableEq

/-- Builds the alert dict of lines 302-310. -/
def mkSignal (mkt : Market) (now : Int) (w : String) (b : WalletBet)
    (info : WalletInfo) (sc : ScoreResult) : InsiderSignal :=
  { market := mkt, wallet := w, bet_size := b.size, trades := b.trades,
    wallet_info := info, score := sc, timestamp := now }

/-- The per-wallet loop of `analyze_trades` (lines 283-310): wallets whose
aggregated bet size is below `MIN_BET_SIZE` are skipped with `continue`
before any wallet-history lookup; otherwise the wallet history is resolved
(threading the cache), the score computed, and a signal appended when
`probability > 20`.  Besides the signals, the final cache state and the
list of wallets for which `get_wallet_history` was invoked are returned. -/
def processWallets (now : Int) (fetch : String → Option (List HistTrade))
    (mkt : Market) : List (String × WalletBet) → Cache →
    Option (List InsiderSignal × Cache × List String)
  | [], cache => some ([], cache, [])
  | (w, b) :: rest, cache =>
    if b.size < MIN_BET_SIZE then processWallets now fetch mkt rest cache
    else
      match calculate_insider_score now
          (get_wallet_history cache w (fetch w)).1 b.size mkt b.trades with
      | none => none
      | some sc =>
        match processWallets now fetch mkt rest
            (get_wallet_history cache w (fetch w)).2 with
        | none => none
        | some (sigs, cF, lks) =>
          some ((if 20 < sc.probability then
                   [mkSignal mkt now w b (get_wallet_history cache w (fetch w)).1 sc]
                 else []) ++ sigs, cF, w :: lks)

/-- `analyze_trades` (lines 259-312) for one market: group the recent trades
by wallet, then analyze each wallet.  `fetch w` models the outcome of the
wallet-history request for `w` (`none` = failure).  `none` overall models an
exception escaping the batch. -/
def analyze_trades (now : Int) (cache : Cache) (mkt : Market)
    (trades : List RawTrade) (fetch : String → Option (List HistTrade)) :
    Option (List InsiderSignal × Cache × List String) :=
  match groupTrades now trades [] with
  | none => none
  | some wb => processWallets now fetch mkt wb cache

/-- A family of pairwise distinct wallet addresses. -/
def wal (i : ℕ) : String := String.mk (List.replicate i 'a')

/-- The cache state after `n` distinct wallets have been resolved through
`get_wallet_history`, each fetch succeeding. -/
def cacheAfter : ℕ → Cache
  | 0 => []
  | n + 1 => (get_wallet_history (cacheAfter n) (wal n) (some [])).2

/-! ### Helper lemmas about the scoring factors -/

lemma factor1_fst_le (now : Int) (wi : WalletInfo) : (factor1 now wi).1 ≤ 40 := by
  unfold factor1
  split
  · decide
  · split
    · decide
    · split
      · split
        · decide
        · decide
      · decide

lemma factor2_fst_le (bet : ℚ) : (factor2 bet).1 ≤ 30 := by
  unfold factor2
  split
  · decide
  · split
    · decide
    · split
      · decide
      · decide

lemma factor2_fst_ge (bet : ℚ) : 10 ≤ (factor2 bet).1 := by
  unfold factor2
  split
  · decide
  · split
    · decide
    · split
      · decide
      · decide

lemma factor2_snd_ne (bet : ℚ) : (factor2 bet).2 ≠ [] := by
  unfold factor2
  split
  · simp
  · split
    · simp
    · split
      · simp
      · simp

lemma factor3_fst_le (wi : WalletInfo) : (factor3 wi).1 ≤ 20 := by
  unfold factor3
  split
  · decide
  · split
    · decide
    · decide

lemma factor4_fst_le (ts0 : Int) : (factor4 ts0).1 ≤ 10 := by
  unfold factor4
  split
  · decide
  · decide

/-- Shape of every result the scoring engine actually returns: the
probability equals the raw score (the maximum is invariably 100), the score
is the sum of the four factor contributions, and the reasons are their
concatenation. -/
lemma calculate_some_spec {now : Int} {wi : WalletInfo} {bet : ℚ} {mkt : Market}
    {trades : List RawTrade} {r : ScoreResult}
    (h : calculate_insider_score now wi bet mkt trades = some r) :
    ∃ ts0 : Int,
      r.probability = r.score ∧
      r.score = (factor1 now wi).1 + (factor2 bet).1 + (factor3 wi).1 + (factor4 ts0).1 ∧
      r.reasons = (factor1 now wi).2 ++ (factor2 bet).2 ++ (factor3 wi).2 ++ (factor4 ts0).2 := by
  unfold calculate_insider_score at h
  split at h
  · exact Option.noConfusion h
  · split at h
    · exact Option.noConfusion h
    · rename_i t0 ts0 heq
      injection h with h
      subst h
      refine ⟨ts0, ?_, rfl, rfl⟩
      show (_ * 100 / (40 + 30 + 20 + 10) : ℕ) = _
      exact Nat.mul_div_cancel _ (by norm_num)

/-! ### Claim C7 - clamping of the final confidence -/

/-- Claim C7: for every trade and wallet profile the scoring engine accepts
(it returns a result rather than raising), the returned confidence is an
integer in [0, 100].  `probability` is a natural number, so only the upper
bound is non-trivial; it holds because the four factor contributions are
capped at 40, 30, 20 and 10 points and `max_score` is invariably 100. -/
theorem C7_confidence_clamped (now : Int) (wi : WalletInfo) (bet : ℚ)
    (mkt : Market) (trades : List RawTrade) (r : ScoreResult)
    (h : calculate_insider_score now wi bet mkt trades = some r) :
    r.probability ≤ 100 := by
  obtain ⟨ts0, hp, hs, _⟩ := calculate_some_spec h
  have e1 := factor1_fst_le now wi
  have e2 := factor2_fst_le bet
  have e3 := factor3_fst_le wi
  have e4 := factor4_fst_le ts0
  omega

/-- Witness for C7 at a concrete accepted input. -/
theorem C7_confidence_clamped_witness :
    calculate_insider_score 0 ⟨[], none⟩ 5 "m" [⟨some 0, "w", some 1, some 1, "m"⟩] =
      some ⟨70, 70, 100, [reason_wallet_new, reason_bet_medium, reason_focus_limited, reason_timing]⟩ ∧
    (70 : ℕ) ≤ 100 :=
  ⟨by decide,
   C7_confidence_clamped 0 ⟨[], none⟩ 5 "m" [⟨some 0, "w", some 1, some 1, "m"⟩]
     ⟨70, 70, 100, [reason_wallet_new, reason_bet_medium, reason_focus_limited, reason_timing]⟩
     (by decide)⟩

/-! ### Claim C10 - a scored wallet never gets confidence 0 or empty signals -/

/-- Claim C10: whenever the scoring engine returns a result (the wallet
passed the bet-size floor and reached `calculate_insider_score`), the
confidence is at least 10 and the signal list is non-empty, because the
bet-size factor's final `else` branch always contributes 10 points and
appends a reason. -/
theorem C10_scored_wallet_nonzero (now : Int) (wi : WalletInfo) (bet : ℚ)
    (mkt : Market) (trades : List RawTrade) (r : ScoreResult)
    (h : calculate_insider_score now wi bet mkt trades = some r) :
    10 ≤ r.probability ∧ r.reasons ≠ [] := by
  obtain ⟨ts0, hp, hs, hr⟩ := calculate_some_spec h
  constructor
  · have e2 := factor2_fst_ge bet
    omega
  · rw [hr]
    intro hnil
    rcases List.append_eq_nil.mp hnil with ⟨h123, -⟩
    rcases List.append_eq_nil.mp h123 with ⟨h12, -⟩
    rcases List.append_eq_nil.mp h12 with ⟨-, h2⟩
    exact factor2_snd_ne bet h2

/-- Witness for C10 at a concrete accepted input. -/
theorem C10_scored_wallet_nonzero_witness :
    calculate_insider_score 0 ⟨[], none⟩ 15000 "m" [⟨some 43200, "w", some 30000, some (1/2), "m"⟩] =
      some ⟨65, 65, 100, [reason_wallet_new, reason_bet_significant, reason_focus_limited]⟩ ∧
    (10 : ℕ) ≤ 65 ∧
    ([reason_wallet_new, reason_bet_significant, reason_focus_limited] : List String) ≠ [] :=
  ⟨by decide,
   (C10_scored_wallet_nonzero 0 ⟨[], none⟩ 15000 "m"
      [⟨some 43200, "w", some 30000, some (1/2), "m"⟩]
      ⟨65, 65, 100, [reason_wallet_new, reason_bet_significant, reason_focus_limited]⟩
      (by decide)).1,
   (C10_scored_wallet_nonzero 0 ⟨[], none⟩ 15000 "m"
      [⟨some 43200, "w", some 30000, some (1/2), "m"⟩]
      ⟨65, 65, 100, [reason_wallet_new, reason_bet_significant, reason_focus_limited]⟩
      (by decide)).2⟩

/-! ### Claim C3 - fail-open wallet resolution -/

/-- Claim C3: when the wallet-history fetch fails (network error or non-2xx
status) on a cache miss, `get_wallet_history` does not propagate the error:
it returns the zero-valued profile (empty trade list, null first-trade
date) and leaves the cache untouched, and the novelty factor scores that
profile at its maximal 40-point contribution with the new-wallet signal. -/
theorem C3_fail_open_wallet_resolution (cache : Cache) (w : String) (now : Int)
    (hmiss : dictFind cache w = none) :
    get_wallet_history cache w none = ({ trades := [], first_trade_date := none }, cache) ∧
    factor1 now { trades := [], first_trade_date := none } = (40, [reason_wallet_new]) ∧
    ∀ (now2 : Int) (wi : WalletInfo), (factor1 now2 wi).1 ≤ 40 := by
  refine ⟨?_, rfl, fun now2 wi => factor1_fst_le now2 wi⟩
  unfold get_wallet_history
  rw [hmiss]

/-- Witness for C3 at a concrete cache miss. -/
theorem C3_fail_open_wallet_resolution_witness :
    dictFind [("other", [])] "0xdead" = none ∧
    get_wallet_history [("other", [])] "0xdead" none =
      ({ trades := [], first_trade_date := none }, [("other", [])]) ∧
    factor1 12345 { trades := [], first_trade_date := none } = (40, [reason_wallet_new]) :=
  ⟨by decide,
   (C3_fail_open_wallet_resolution [("other", [])] "0xdead" 12345 (by decide)).1,
   (C3_fail_open_wallet_resolution [("other", [])] "0xdead" 12345 (by decide)).2.1⟩

/-! ### Claim C4 - end-to-end scenario A -/

/-- Scenario A reference time. -/
def nowA : Int := 11400

/-- Scenario A wallet profile: one prior trade in one market. -/
def wiA : WalletInfo := ⟨[⟨"mA", 10800⟩], some 10800⟩

/-- Scenario A trade: timestamp 03:00, unit price 0.03, notional 60000. -/
def tA : RawTrade := ⟨some 10800, "wA", some 2000000, some (3 / 100), "mA"⟩

/-- The same trade with unit price 0.5 instead of 0.03. -/
def tA2 : RawTrade := ⟨some 10800, "wA", some 120000, some (1 / 2), "mA"⟩

/-- Counterexample to claim C4: at scenario A (notional 60000, unit price
0.03, trade_count 1, one distinct market, timestamp 03:00) the engine
returns confidence 100, but the signal list is exactly a novelty signal, a
size signal, a market-concentration signal and a timing signal - there is
no price-extremity signal.  The engine has no price-extremity factor at
all: replacing the 0.03 unit price by 0.5 (a near-fair price) yields the
identical result, since `calculate_insider_score` never reads a price. -/
theorem C4_scenarioA_counterexample :
    calculate_insider_score nowA wiA 60000 "mA" [tA] =
      some ⟨100, 100, 100,
        [reason_wallet_new, reason_bet_massive, reason_focus_single, reason_timing]⟩ ∧
    calculate_insider_score nowA wiA 60000 "mA" [tA2] =
      some ⟨100, 100, 100,
        [reason_wallet_new, reason_bet_massive, reason_focus_single, reason_timing]⟩ := by
  decide

/-- Claim C4 as amended: at scenario A the confidence is at least 80 and the
signals include a size signal, a novelty signal, a market-concentration
signal and a timing signal (the code has no price-extremity factor, so no
price signal can appear). -/
theorem C4_scenarioA_amended :
    ∃ r : ScoreResult,
      calculate_insider_score nowA wiA 60000 "mA" [tA] = some r ∧
      80 ≤ r.probability ∧ reason_wallet_new ∈ r.reasons ∧
      reason_bet_massive ∈ r.reasons ∧ reason_focus_single ∈ r.reasons ∧
      reason_timing ∈ r.reasons :=
  ⟨⟨100, 100, 100, [reason_wallet_new, reason_bet_massive, reason_focus_single, reason_timing]⟩,
   by decide, by decide, by decide, by decide, by decide, by decide⟩

/-! ### Claim C5 - end-to-end scenario B and signedness of the factors -/

/-- Scenario B wallet history: 200 trades across 40 distinct markets. -/
def histB : List HistTrade := (List.range 200).map fun i => ⟨toString (i % 40), 0⟩

/-- Scenario B wallet profile: `trade_count = 200`, first trade 200 days
before `nowB`. -/
def wiB : WalletInfo := ⟨histB, some 0⟩

/-- Scenario B reference time, 200 days after the wallet's first trade. -/
def nowB : Int := 86400 * 200

/-- Scenario B trade: unit price 0.5, midday timestamp. -/
def tB : RawTrade := ⟨some (86400 * 199 + 12 * 3600), "wB", some 2400, some (1 / 2), "mB"⟩

/-- Counterexample to claim C5: scenario B (notional 1200, unit price 0.5,
trade_count 200, 40 distinct markets) does not score confidence 0 with
empty signals.  The notional 1200 passes the 1000 floor, the establishment
and diversification conditions contribute exactly 0 points (never a
negative adjustment, no short-circuit), and the bet-size factor still adds
10 points and a signal, so the engine returns confidence 10 with the size
signal. -/
theorem C5_scenarioB_counterexample :
    calculate_insider_score nowB wiB 1200 "mB" [tB] =
      some ⟨10, 10, 100, [reason_bet_medium]⟩ ∧
    ¬ (1200 : ℚ) < MIN_BET_SIZE := by
  constructor
  · decide
  · decide

/-- Claim C5 as amended: the novelty and concentration factors are unsigned.
An established wallet (more than 5 trades, first trade at least 90 days
old) and a diversified wallet (more than 3 distinct markets) receive a zero
contribution from factors 1 and 3 - not a negative adjustment - and the
total score still contains the bet-size factor's points with a non-empty
signal list, so no short-circuit to `(0, [])` can occur for a scored
wallet. -/
theorem C5_factors_unsigned (now : Int) (wi : WalletInfo)
    (h1 : 5 < wi.trades.length)
    (h2 : ∀ ftd, wi.first_trade_date = some ftd → NEW_WALLET_DAYS ≤ daysBetween now ftd)
    (h3 : 3 < (wi.trades.map HistTrade.market).dedup.length) :
    (factor1 now wi).1 = 0 ∧ (factor3 wi).1 = 0 ∧
    ∀ (bet : ℚ) (mkt : Market) (trades : List RawTrade) (r : ScoreResult),
      calculate_insider_score now wi bet mkt trades = some r →
      (factor2 bet).1 ≤ r.score ∧ r.reasons ≠ [] := by
  have hf1 : (factor1 now wi).1 = 0 := by
    unfold factor1
    rw [if_neg (by omega), if_neg (by omega)]
    cases hft : wi.first_trade_date with
    | none => rfl
    | some ftd =>
      show (if daysBetween now ftd < NEW_WALLET_DAYS then
              ((20 : ℕ), [reason_wallet_recent]) else (0, [])).1 = 0
      rw [if_neg (by have := h2 ftd hft; omega)]
  have hf3 : (factor3 wi).1 = 0 := by
    unfold factor3
    rw [if_neg (by omega), if_neg (by omega)]
  refine ⟨hf1, hf3, fun bet mkt trades r h => ?_⟩
  obtain ⟨ts0, hp, hs, hr⟩ := calculate_some_spec h
  refine ⟨by omega, ?_⟩
  rw [hr]
  intro hnil
  rcases List.append_eq_nil.mp hnil with ⟨h123, -⟩
  rcases List.append_eq_nil.mp h123 with ⟨h12, -⟩
  rcases List.append_eq_nil.mp h12 with ⟨-, hend⟩
  exact factor2_snd_ne bet hend

/-- Witness for the amended C5 at scenario B. -/
theorem C5_factors_unsigned_witness :
    5 < wiB.trades.length ∧
    3 < (wiB.trades.map HistTrade.market).dedup.length ∧
    (factor1 nowB wiB).1 = 0 ∧ (factor3 wiB).1 = 0 ∧
    (factor2 1200).1 ≤ 10 ∧ ([reason_bet_medium] : List String) ≠ [] := by
  have h2 : ∀ ftd, wiB.first_trade_date = some ftd → NEW_WALLET_DAYS ≤ daysBetween nowB ftd := by
    intro ftd hf
    simp only [wiB, Option.some.injEq] at hf
    subst hf
    decide
  have main := C5_factors_unsigned nowB wiB (by decide) h2 (by decide)
  have hc := main.2.2 1200 "mB" [tB] ⟨10, 10, 100, [reason_bet_medium]⟩ (by decide)
  exact ⟨by decide, by decide, main.1, main.2.1, hc.1, hc.2⟩

/-! ### Claim C6 - a malformed record aborts the whole batch -/

/-- If any trade in the batch has an unparseable timestamp, or is within the
one-hour window but has an unparseable size, the grouping loop of
`analyze_trades` raises, whatever the accumulator state. -/
lemma groupTrades_none (now : Int) (t : RawTrade)
    (hbad : t.timestamp = none ∨
      ∃ ts, t.timestamp = some ts ∧ ¬ ts < now - 3600 ∧ t.size = none) :
    ∀ (trades : List RawTrade), t ∈ trades →
      ∀ acc, groupTrades now trades acc = none := by
  intro trades
  induction trades with
  | nil => intro hmem; exact absurd hmem (List.not_mem_nil t)
  | cons hd tl ih =>
    intro hmem acc
    rcases List.mem_cons.mp hmem with heq | hmem2
    · subst heq
      unfold groupTrades
      rcases hbad with hts | ⟨ts, hts, hrec, hsz⟩
      · rw [hts]
      · split
        · rfl
        · rename_i ts2 heq2
          rw [hts] at heq2
          injection heq2 with heq2
          subst heq2
          rw [if_neg hrec, hsz]
    · unfold groupTrades
      split
      · rfl
      · rename_i ts heq2
        by_cases hlt : ts < now - 3600
        · rw [if_pos hlt]
          exact ih hmem2 acc
        · rw [if_neg hlt]
          split
          all_goals first
          | rfl
          | exact ih hmem2 _

/-- Claim C6 as amended: a single malformed record (unparseable timestamp,
or a recent trade with non-numeric size) makes `analyze_trades` raise and
abort the whole batch: no record of the batch is scored and no signal is
produced.  The exception is caught only by the blanket handler of
`check_insider_activity`, which abandons the entire scan cycle. -/
theorem C6_malformed_aborts_batch (now : Int) (cache : Cache) (mkt : Market)
    (fetch : String → Option (List HistTrade)) (trades : List RawTrade)
    (t : RawTrade) (hmem : t ∈ trades)
    (hbad : t.timestamp = none ∨
      ∃ ts, t.timestamp = some ts ∧ ¬ ts < now - 3600 ∧ t.size = none) :
    analyze_trades now cache mkt trades fetch = none := by
  unfold analyze_trades
  rw [groupTrades_none now t hbad trades hmem []]

/-- First valid scenario-C record. -/
def v61 : RawTrade := ⟨some 9800, "w6", some 900, some 1, "m6"⟩

/-- The malformed scenario-C record: recent timestamp, non-numeric size. -/
def bad6 : RawTrade := ⟨some 9850, "w6bad", none, some 1, "m6"⟩

/-- Second valid scenario-C record. -/
def v62 : RawTrade := ⟨some 9900, "w6", some 600, some 1, "m6"⟩

/-- Wallet-history fetch used in scenario C: every wallet resolves to an
empty history. -/
def fetch6 : String → Option (List HistTrade) := fun _ => some []

/-- Counterexample to claim C6: feeding the batch `[v61, bad6, v62]` (one
malformed record between two valid ones) to `analyze_trades` does not skip
the malformed record and score the others - the whole batch raises and
yields nothing, whereas the two valid records alone would produce an
alert-worthy signal for wallet `w6`. -/
theorem C6_malformed_counterexample :
    analyze_trades 10000 [] "m6" [v61, bad6, v62] fetch6 = none ∧
    analyze_trades 10000 [] "m6" [v61, v62] fetch6 =
      some ([⟨"m6", "w6", 1500, [v61, v62], ⟨[], none⟩,
              ⟨70, 70, 100, [reason_wallet_new, reason_bet_medium,
                             reason_focus_limited, reason_timing]⟩, 10000⟩],
            [("w6", [])], ["w6"]) := by
  constructor
  · decide
  · have g : groupTrades 10000 [v61, v62] [] = some [("w6", ⟨1500, [v61, v62]⟩)] := by
      norm_num [groupTrades, addBet, v61, v62]
    unfold analyze_trades
    rw [g]
    decide

/-- Witness for the amended C6 at the concrete scenario-C batch. -/
theorem C6_malformed_aborts_batch_witness :
    bad6 ∈ [v61, bad6, v62] ∧
    bad6.size = none ∧
    analyze_trades 10000 [] "m6" [v61, bad6, v62] fetch6 = none :=
  ⟨by decide, by decide,
   C6_malformed_aborts_batch 10000 [] "m6" fetch6 [v61, bad6, v62] bad6
     (by decide) (Or.inr ⟨9850, by decide, by decide, by decide⟩)⟩

/-! ### Claim C9 - the wallet-history cache is unbounded -/

lemma wal_length (i : ℕ) : (wal i).length = i := by
  simp [wal, String.length]

lemma wal_injective : Function.Injective wal := by
  intro a b h
  have := congrArg String.length h
  rwa [wal_length, wal_length] at this

lemma dictFind_cacheAfter {n m : ℕ} (h : n ≤ m) :
    dictFind (cacheAfter n) (wal m) = none := by
  induction n generalizing m with
  | zero => rfl
  | succ k ih =>
    have hk : dictFind (cacheAfter k) (wal k) = none := ih (le_refl k)
    show dictFind (get_wallet_history (cacheAfter k) (wal k) (some [])).2 (wal m) = none
    unfold get_wallet_history
    rw [hk]
    show dictFind ((wal k, []) :: cacheAfter k) (wal m) = none
    unfold dictFind
    rw [if_neg (by intro he; have := wal_injective he; omega)]
    exact ih (by omega)

lemma cacheAfter_length (n : ℕ) : (cacheAfter n).length = n := by
  induction n with
  | zero => rfl
  | succ k ih =>
    show ((get_wallet_history (cacheAfter k) (wal k) (some [])).2).length = k + 1
    unfold get_wallet_history
    rw [dictFind_cacheAfter (le_refl k)]
    show ((wal k, []) :: cacheAfter k).length = k + 1
    simp [ih]

/-- Counterexample to claim C9: the `wallet_history` dict is not
size-bounded.  There is no capacity `C` that the cache respects: resolving
`n` distinct wallets leaves all `n` entries in the cache (`cacheAfter`),
so for every claimed capacity the state after `C + 1` insertions exceeds
it.  Nothing is ever evicted, LRU or otherwise. -/
theorem C9_cache_bound_counterexample :
    ¬ ∃ C : ℕ, ∀ n : ℕ, (cacheAfter n).length ≤ C := by
  rintro ⟨C, h⟩
  have hl := h (C + 1)
  rw [cacheAfter_length] at hl
  omega

/-- Claim C9 as amended: the cache is unbounded and never refreshed.
After `n` distinct wallet resolutions the cache holds exactly `n` entries
(no eviction of any kind), and a cache hit returns the stored history
unchanged, ignoring the fetch outcome entirely (entries are never
refreshed or expired). -/
theorem C9_cache_unbounded :
    (∀ n : ℕ, (cacheAfter n).length = n) ∧
    (∀ (cache : Cache) (w : String) (ts : List HistTrade)
       (f : Option (List HistTrade)),
      dictFind cache w = some ts →
      get_wallet_history cache w f = (walletInfoOf ts, cache)) := by
  refine ⟨cacheAfter_length, fun cache w ts f h => ?_⟩
  unfold get_wallet_history
  rw [h]

/-- Witness for the amended C9: three insertions yield three entries, and a
hit on a concrete one-entry cache returns the stored (empty) history with
the cache unchanged, even though the fetch would have failed. -/
theorem C9_cache_unbounded_witness :
    (cacheAfter 3).length = 3 ∧
    dictFind [("wx", [])] "wx" = some [] ∧
    get_wallet_history [("wx", [])] "wx" none = (walletInfoOf [], [("wx", [])]) :=
  ⟨C9_cache_unbounded.1 3, by decide,
   C9_cache_unbounded.2 [("wx", [])] "wx" [] none (by decide)⟩

/-! ### Claims C1 and C8 - the bet-size floor is a hard gate -/

lemma keys_addBet (acc : List (String × WalletBet)) (w : String) (usd : ℚ)
    (t : RawTrade) :
    (addBet acc w usd t).map Prod.fst =
      acc.map Prod.fst ++ (if w ∈ acc.map Prod.fst then [] else [w]) := by
  induction acc with
  | nil => simp [addBet]
  | cons hd tl ih =>
    obtain ⟨k, b⟩ := hd
    unfold addBet
    by_cases hk : k = w
    · subst hk
      rw [if_pos rfl]
      simp
    · rw [if_neg hk]
      simp only [List.map_cons, ih]
      by_cases hw : w ∈ tl.map Prod.fst
      · rw [if_pos hw, if_pos (List.mem_cons_of_mem k hw)]
        simp
      · rw [if_neg hw, if_neg (by
          intro hmem
          rcases List.mem_cons.mp hmem with he | hm
          · exact hk he.symm
          · exact hw hm)]
        simp

lemma nodupKeys_addBet {acc : List (String × WalletBet)} {w : String} {usd : ℚ}
    {t : RawTrade} (h : (acc.map Prod.fst).Nodup) :
    ((addBet acc w usd t).map Prod.fst).Nodup := by
  rw [keys_addBet]
  by_cases hw : w ∈ acc.map Prod.fst
  · simpa [hw]
  · rw [if_neg hw, List.nodup_append]
    exact ⟨h, List.nodup_singleton w,
      fun a ha hab => hw ((List.mem_singleton.mp hab) ▸ ha)⟩

/-- The wallet keys produced by the grouping loop are pairwise distinct:
`wallet_bets` is a dict. -/
lemma groupTrades_nodupKeys (now : Int) :
    ∀ (ts : List RawTrade) (acc wb : List (String × WalletBet)),
      (acc.map Prod.fst).Nodup → groupTrades now ts acc = some wb →
      (wb.map Prod.fst).Nodup := by
  intro ts
  induction ts with
  | nil =>
    intro acc wb h hg
    unfold groupTrades at hg
    injection hg with hg
    subst hg
    exact h
  | cons hd tl ih =>
    intro acc wb h hg
    unfold groupTrades at hg
    split at hg
    · exact Option.noConfusion hg
    · rename_i ts0 heq
      split at hg
      · exact ih acc wb h hg
      · split at hg
        · exact ih _ wb (nodupKeys_addBet h) hg
        · exact Option.noConfusion hg

lemma eq_of_mem_nodupKeys :
    ∀ {wb : List (String × WalletBet)} {w : String} {b b' : WalletBet},
      (wb.map Prod.fst).Nodup → (w, b) ∈ wb → (w, b') ∈ wb → b = b' := by
  intro wb
  induction wb with
  | nil =>
    intro w b b' hnd h1 h2
    exact absurd h1 (List.not_mem_nil _)
  | cons hd tl ih =>
    intro w b b' hnd h1 h2
    obtain ⟨k, c⟩ := hd
    rw [List.map_cons, List.nodup_cons] at hnd
    rcases List.mem_cons.mp h1 with e1 | m1
    · rcases List.mem_cons.mp h2 with e2 | m2
      · injection e1 with ew1 eb1
        injection e2 with ew2 eb2
        rw [eb1, eb2]
      · exfalso
        injection e1 with ew1 eb1
        subst ew1
        exact hnd.1 (List.mem_map.mpr ⟨(w, b'), m2, rfl⟩)
    · rcases List.mem_cons.mp h2 with e2 | m2
      · exfalso
        injection e2 with ew2 eb2
        subst ew2
        exact hnd.1 (List.mem_map.mpr ⟨(w, b), m1, rfl⟩)
      · exact ih hnd.2 m1 m2

/-- The per-wallet loop never produces a signal for, nor looks up the
history of, a wallet all of whose aggregated entries are below the
`MIN_BET_SIZE` floor. -/
lemma processWallets_below_floor (now : Int)
    (fetch : String → Option (List HistTrade)) (mkt : Market) (w : String) :
    ∀ (wbs : List (String × WalletBet)) (cache : Cache)
      (sigs : List InsiderSignal) (cF : Cache) (lk : List String),
      processWallets now fetch mkt wbs cache = some (sigs, cF, lk) →
      (∀ b', (w, b') ∈ wbs → b'.size < MIN_BET_SIZE) →
      (∀ s ∈ sigs, s.wallet ≠ w) ∧ w ∉ lk := by
  intro wbs
  induction wbs with
  | nil =>
    intro cache sigs cF lk h hall
    unfold processWallets at h
    injection h with h
    rw [Prod.mk.injEq, Prod.mk.injEq] at h
    obtain ⟨hs, -, hl⟩ := h
    subst hs
    subst hl
    exact ⟨fun s hs => absurd hs (List.not_mem_nil s), List.not_mem_nil w⟩
  | cons hd tl ih =>
    intro cache sigs cF lk h hall
    obtain ⟨k, b⟩ := hd
    by_cases hb : b.size < MIN_BET_SIZE
    · unfold processWallets at h
      rw [if_pos hb] at h
      exact ih cache sigs cF lk h (fun b2 hb2 => hall b2 (List.mem_cons_of_mem _ hb2))
    · have hkw : k ≠ w := by
        intro he
        subst he
        exact hb (hall b (List.mem_cons_self _ _))
      unfold processWallets at h
      rw [if_neg hb] at h
      split at h
      · exact Option.noConfusion h
      · rename_i sc hsc
        split at h
        · exact Option.noConfusion h
        · rename_i sigs2 cF2 lks2 hrest
          injection h with h
          rw [Prod.mk.injEq, Prod.mk.injEq] at h
          obtain ⟨hs, hc, hl⟩ := h
          subst hs
          subst hl
          obtain ⟨hsig2, hlk2⟩ :=
            ih _ sigs2 cF2 lks2 hrest (fun b2 hb2 => hall b2 (List.mem_cons_of_mem _ hb2))
          constructor
          · intro s hsmem
            rcases List.mem_append.mp hsmem with hpre | hin
            · by_cases hp : 20 < sc.probability
              · rw [if_pos hp, List.mem_singleton] at hpre
                subst hpre
                exact hkw
              · rw [if_neg hp] at hpre
                exact absurd hpre (List.not_mem_nil s)
            · exact hsig2 s hin
          · intro hm
            rcases List.mem_cons.mp hm with he | hm2
            · exact hkw he.symm
            · exact hlk2 hm2

/-- Claim C1: the minimum-notional floor is a hard gate.  If a wallet's
aggregated notional (sum of `share_quantity * unit_price` over its recent
trades) is below `MIN_BET_SIZE`, the analysis produces no signal for that
wallet - no confidence, no reasons, no alert - regardless of cache
contents, wallet profile or fetch behaviour. -/
theorem C1_floor_hard_gate (now : Int) (cache : Cache) (mkt : Market)
    (trades : List RawTrade) (fetch : String → Option (List HistTrade))
    (wb : List (String × WalletBet)) (w : String) (b : WalletBet)
    (sigs : List InsiderSignal) (cF : Cache) (lk : List String)
    (hg : groupTrades now trades [] = some wb)
    (hmem : (w, b) ∈ wb) (hlt : b.size < MIN_BET_SIZE)
    (ha : analyze_trades now cache mkt trades fetch = some (sigs, cF, lk)) :
    ∀ s ∈ sigs, s.wallet ≠ w := by
  have hnd := groupTrades_nodupKeys now trades [] wb (by simp) hg
  have hall : ∀ b', (w, b') ∈ wb → b'.size < MIN_BET_SIZE := by
    intro b' hb'
    rw [eq_of_mem_nodupKeys hnd hb' hmem]
    exact hlt
  unfold analyze_trades at ha
  rw [hg] at ha
  exact (processWallets_below_floor now fetch mkt w wb cache sigs cF lk ha hall).1

/-- Claim C8: a wallet rejected by the cheap prefilter (aggregated bet size
below the floor) never triggers a wallet-profile lookup - the resolver is
not invoked for it - and receives no signal. -/
theorem C8_prefilter_no_lookup (now : Int) (cache : Cache) (mkt : Market)
    (trades : List RawTrade) (fetch : String → Option (List HistTrade))
    (wb : List (String × WalletBet)) (w : String) (b : WalletBet)
    (sigs : List InsiderSignal) (cF : Cache) (lk : List String)
    (hg : groupTrades now trades [] = some wb)
    (hmem : (w, b) ∈ wb) (hlt : b.size < MIN_BET_SIZE)
    (ha : analyze_trades now cache mkt trades fetch = some (sigs, cF, lk)) :
    w ∉ lk ∧ ∀ s ∈ sigs, s.wallet ≠ w := by
  have hnd := groupTrades_nodupKeys now trades [] wb (by simp) hg
  have hall : ∀ b', (w, b') ∈ wb → b'.size < MIN_BET_SIZE := by
    intro b' hb'
    rw [eq_of_mem_nodupKeys hnd hb' hmem]
    exact hlt
  unfold analyze_trades at ha
  rw [hg] at ha
  have hmain := processWallets_below_floor now fetch mkt w wb cache sigs cF lk ha hall
  exact ⟨hmain.2, hmain.1⟩

/-- A below-floor trade: 500 shares at price 1, notional 500. -/
def tW : RawTrade := ⟨some 9500, "walletA", some 500, some 1, "m"⟩

/-- Fetch behaviour for the C1 witness (irrelevant: never consulted). -/
def fetchW : String → Option (List HistTrade) := fun _ => none

/-- Witness for C1: a concrete wallet with aggregated notional 500 yields no
signal whatever. -/
theorem C1_floor_hard_gate_witness :
    groupTrades 10000 [tW] [] = some [("walletA", ⟨500, [tW]⟩)] ∧
    (⟨500, [tW]⟩ : WalletBet).size < MIN_BET_SIZE ∧
    analyze_trades 10000 [] "m" [tW] fetchW = some ([], [], []) ∧
    ∀ s ∈ ([] : List InsiderSignal), s.wallet ≠ "walletA" := by
  have hg : groupTrades 10000 [tW] [] = some [("walletA", ⟨500, [tW]⟩)] := by
    simp [groupTrades, addBet, tW]
  have ha : analyze_trades 10000 [] "m" [tW] fetchW = some ([], [], []) := by
    unfold analyze_trades
    rw [hg]
    decide
  exact ⟨hg, by decide, ha,
    C1_floor_hard_gate 10000 [] "m" [tW] fetchW [("walletA", ⟨500, [tW]⟩)]
      "walletA" ⟨500, [tW]⟩ [] [] [] hg (by decide) (by decide) ha⟩

/-- A below-floor trade for the C8 witness: 600 shares at price 1. -/
def tW8 : RawTrade := ⟨some 19500, "walletB", some 600, some 1, "m8"⟩

/-- Fetch behaviour for the C8 witness (would succeed, but is never
consulted). -/
def fetch8 : String → Option (List HistTrade) := fun _ => some []

/-- Witness for C8: a concrete below-floor wallet is neither looked up nor
signalled, and the cache is left exactly as it was. -/
theorem C8_prefilter_no_lookup_witness :
    groupTrades 20000 [tW8] [] = some [("walletB", ⟨600, [tW8]⟩)] ∧
    (⟨600, [tW8]⟩ : WalletBet).size < MIN_BET_SIZE ∧
    analyze_trades 20000 [("walletB", [⟨"m8", 100⟩])] "m8" [tW8] fetch8 =
      some ([], [("walletB", [⟨"m8", 100⟩])], []) ∧
    "walletB" ∉ ([] : List String) := by
  have hg : groupTrades 20000 [tW8] [] = some [("walletB", ⟨600, [tW8]⟩)] := by
    simp [groupTrades, addBet, tW8]
  have ha : analyze_trades 20000 [("walletB", [⟨"m8", 100⟩])] "m8" [tW8] fetch8 =
      some ([], [("walletB", [⟨"m8", 100⟩])], []) := by
    unfold analyze_trades
    rw [hg]
    decide
  exact ⟨hg, by decide, ha,
    (C8_prefilter_no_lookup 20000 [("walletB", [⟨"m8", 100⟩])] "m8" [tW8] fetch8
      [("walletB", ⟨600, [tW8]⟩)] "walletB" ⟨600, [tW8]⟩ [] [("walletB", [⟨"m8", 100⟩])] []
      hg (by decide) (by decide) ha).1⟩

/-! ### Claim C2 - there is no deduplication ledger -/

/-- `d` preserves every binding present in `c` (caches only grow and are
never overwritten). -/
def CacheLE (c d : Cache) : Prop :=
  ∀ w v, dictFind c w = some v → dictFind d w = some v

/-- Every cache entry is exactly what the (deterministic) wallet-history
fetch would return: the invariant maintained by `get_wallet_history`, which
only ever stores a successful fetch result. -/
def Coherent (fetch : String → Option (List HistTrade)) (c : Cache) : Prop :=
  ∀ w v, dictFind c w = some v → fetch w = some v

lemma cacheLE_refl (c : Cache) : CacheLE c c := fun _ _ h => h

lemma cacheLE_trans {a b c : Cache} (h1 : CacheLE a b) (h2 : CacheLE b c) :
    CacheLE a c := fun w v h => h2 w v (h1 w v h)

lemma cacheLE_cons {c : Cache} {w : String} {v : List HistTrade}
    (h : dictFind c w = none) : CacheLE c ((w, v) :: c) := by
  intro w2 v2 h2
  unfold dictFind
  split
  · rename_i heq
    rw [heq] at h
    rw [h] at h2
    exact Option.noConfusion h2
  · exact h2

lemma gwh_cacheLE (c : Cache) (w : String) (f : Option (List HistTrade)) :
    CacheLE c (get_wallet_history c w f).2 := by
  cases hc : dictFind c w with
  | some ts =>
    have h2 : (get_wallet_history c w f).2 = c := by
      unfold get_wallet_history; rw [hc]
    rw [h2]
    exact cacheLE_refl c
  | none =>
    cases f with
    | some tr =>
      have h2 : (get_wallet_history c w (some tr)).2 = (w, tr) :: c := by
        unfold get_wallet_history; rw [hc]
      rw [h2]
      exact cacheLE_cons hc
    | none =>
      have h2 : (get_wallet_history c w none).2 = c := by
        unfold get_wallet_history; rw [hc]
      rw [h2]
      exact cacheLE_refl c

lemma gwh_coherent {fetch : String → Option (List HistTrade)} {c : Cache}
    (hco : Coherent fetch c) (w : String) :
    Coherent fetch (get_wallet_history c w (fetch w)).2 := by
  cases hc : dictFind c w with
  | some ts =>
    have h2 : (get_wallet_history c w (fetch w)).2 = c := by
      unfold get_wallet_history; rw [hc]
    rw [h2]
    exact hco
  | none =>
    cases hf : fetch w with
    | some tr =>
      have h2 : (get_wallet_history c w (some tr)).2 = (w, tr) :: c := by
        unfold get_wallet_history; rw [hc]
      rw [h2]
      intro w2 v2 h2m
      unfold dictFind at h2m
      split at h2m
      · rename_i heq
        injection h2m with h2m
        rw [← heq, ← h2m]
        exact hf
      · exact hco w2 v2 h2m
    | none =>
      have h2 : (get_wallet_history c w none).2 = c := by
        unfold get_wallet_history; rw [hc]
      rw [h2]
      exact hco

/-- Replaying a wallet resolution against any coherent cache that extends
its result state returns the identical wallet info and leaves the cache
unchanged. -/
lemma gwh_replay {fetch : String → Option (List HistTrade)} {c d : Cache}
    (w : String) (hcoD : Coherent fetch d)
    (hle : CacheLE (get_wallet_history c w (fetch w)).2 d) :
    get_wallet_history d w (fetch w) =
      ((get_wallet_history c w (fetch w)).1, d) := by
  cases hc : dictFind c w with
  | some ts =>
    have h2 : get_wallet_history c w (fetch w) = (walletInfoOf ts, c) := by
      unfold get_wallet_history; rw [hc]
    have hd : dictFind d w = some ts := by
      refine hle w ts ?_
      rw [h2]
      exact hc
    rw [h2]
    unfold get_wallet_history
    rw [hd]
  | none =>
    cases hf : fetch w with
    | some tr =>
      have h2 : get_wallet_history c w (some tr) = (walletInfoOf tr, (w, tr) :: c) := by
        unfold get_wallet_history; rw [hc]
      have hmem : dictFind ((w, tr) :: c) w = some tr := by
        unfold dictFind
        rw [if_pos rfl]
      have hle2 : CacheLE ((w, tr) :: c) d := by
        rw [hf, h2] at hle
        exact hle
      have hd : dictFind d w = some tr := hle2 w tr hmem
      rw [h2]
      unfold get_wallet_history
      rw [hd]
    | none =>
      have h2 : get_wallet_history c w none =
          ({ trades := [], first_trade_date := none }, c) := by
        unfold get_wallet_history; rw [hc]
      have hd : dictFind d w = none := by
        cases hdw : dictFind d w with
        | none => rfl
        | some v =>
          have := hcoD w v hdw
          rw [hf] at this
          exact Option.noConfusion this
      rw [h2]
      unfold get_wallet_history
      rw [hd]

/-- Re-running the per-wallet loop over the same wallet groups, starting
from any coherent cache extending the first run's final cache, reproduces
the identical signals and lookups and leaves the cache unchanged. -/
lemma processWallets_replay (now : Int)
    (fetch : String → Option (List HistTrade)) (mkt : Market) :
    ∀ (wbs : List (String × WalletBet)) (c : Cache)
      (sigs : List InsiderSignal) (cF : Cache) (lk : List String),
      Coherent fetch c →
      processWallets now fetch mkt wbs c = some (sigs, cF, lk) →
      Coherent fetch cF ∧ CacheLE c cF ∧
        ∀ d, Coherent fetch d → CacheLE cF d →
          processWallets now fetch mkt wbs d = some (sigs, d, lk) := by
  intro wbs
  induction wbs with
  | nil =>
    intro c sigs cF lk hco h
    unfold processWallets at h
    injection h with h
    rw [Prod.mk.injEq, Prod.mk.injEq] at h
    obtain ⟨hs, hc, hl⟩ := h
    subst hs
    subst hc
    subst hl
    exact ⟨hco, cacheLE_refl c, fun d hcoD hled => rfl⟩
  | cons hd tl ih =>
    intro c sigs cF lk hco h
    obtain ⟨k, b⟩ := hd
    by_cases hb : b.size < MIN_BET_SIZE
    · unfold processWallets at h
      rw [if_pos hb] at h
      obtain ⟨hcoF, hleF, hrep⟩ := ih c sigs cF lk hco h
      refine ⟨hcoF, hleF, fun d hcoD hled => ?_⟩
      unfold processWallets
      rw [if_pos hb]
      exact hrep d hcoD hled
    · unfold processWallets at h
      rw [if_neg hb] at h
      split at h
      · exact Option.noConfusion h
      · rename_i sc hsc
        split at h
        · exact Option.noConfusion h
        · rename_i sigs2 cF2 lks2 hrest
          injection h with h
          rw [Prod.mk.injEq, Prod.mk.injEq] at h
          obtain ⟨hs, hc2, hl⟩ := h
          subst hs
          subst hc2
          subst hl
          have hco1 : Coherent fetch (get_wallet_history c k (fetch k)).2 :=
            gwh_coherent hco k
          have hle1 : CacheLE c (get_wallet_history c k (fetch k)).2 :=
            gwh_cacheLE c k (fetch k)
          obtain ⟨hcoF, hleF, hrep⟩ := ih _ sigs2 cF2 lks2 hco1 hrest
          refine ⟨hcoF, cacheLE_trans hle1 hleF, fun d hcoD hled => ?_⟩
          have hgd : get_wallet_history d k (fetch k) =
              ((get_wallet_history c k (fetch k)).1, d) :=
            gwh_replay k hcoD (cacheLE_trans hleF hled)
          have hgd1 : (get_wallet_history d k (fetch k)).1 =
              (get_wallet_history c k (fetch k)).1 := by rw [hgd]
          have hgd2 : (get_wallet_history d k (fetch k)).2 = d := by rw [hgd]
          unfold processWallets
          rw [if_neg hb, hgd1, hgd2, hsc, hrep d hcoD hled]

/-- Claim C2 as amended: the code keeps no deduplication ledger, so
re-running the analysis over the same trade batch - as consecutive polling
cycles of `check_insider_activity` do, since `get_recent_trades` returns
the same recent trades each time - reproduces the identical signals, and
each of them is alerted again.  Starting from the previous run's final
wallet cache (the only state carried across cycles, assumed coherent with
the deterministic fetch), the second run returns exactly the first run's
signals, lookups and cache. -/
theorem C2_rerun_realerts (now : Int) (cache : Cache) (mkt : Market)
    (trades : List RawTrade) (fetch : String → Option (List HistTrade))
    (sigs : List InsiderSignal) (c1 : Cache) (lk : List String)
    (hco : Coherent fetch cache)
    (h : analyze_trades now cache mkt trades fetch = some (sigs, c1, lk)) :
    analyze_trades now c1 mkt trades fetch = some (sigs, c1, lk) := by
  unfold analyze_trades at h ⊢
  split at h
  · exact Option.noConfusion h
  · rename_i wb hg
    obtain ⟨hcoF, hle, hrep⟩ :=
      processWallets_replay now fetch mkt wb cache sigs c1 lk hco h
    exact hrep c1 hcoF (cacheLE_refl c1)

/-- Wallet-history fetch for the C2 scenario: wallet `0xabc` resolves to an
empty history. -/
def c2fetch : String → Option (List HistTrade) :=
  fun w => if w = "0xabc" then some [] else none

/-- First polling cycle's `datetime.now()` for the C2 scenario. -/
def now1c2 : Int := 86400 * 100 + 3 * 3600 + 600

/-- The C2 trade: 4000 USD notional at 03:00, ten minutes before `now1c2`. -/
def T2 : RawTrade := ⟨some (86400 * 100 + 3 * 3600), "0xabc", some 4000, some 1, "mkt2"⟩

/-- The alert produced for `T2` in the first cycle. -/
def sig2c : InsiderSignal :=
  ⟨"mkt2", "0xabc", 4000, [T2], ⟨[], none⟩,
   ⟨70, 70, 100, [reason_wallet_new, reason_bet_medium, reason_focus_limited, reason_timing]⟩,
   now1c2⟩

/-- Counterexample to claim C2: there is no `is_new` deduplication anywhere
in the code, and the same trade is re-alerted across polling cycles.  The
first cycle (empty cache) alerts on `T2`; the next cycle 30 seconds later,
starting from the cache state the first cycle left behind, sees the same
trade in the feed window and emits the same alert for the same wallet
again. -/
theorem C2_no_dedup_counterexample :
    analyze_trades now1c2 [] "mkt2" [T2] c2fetch =
      some ([sig2c], [("0xabc", [])], ["0xabc"]) ∧
    analyze_trades (now1c2 + 30) [("0xabc", [])] "mkt2" [T2] c2fetch =
      some ([{ sig2c with timestamp := now1c2 + 30 }], [("0xabc", [])], ["0xabc"]) := by
  constructor
  · have g : groupTrades now1c2 [T2] [] = some [("0xabc", ⟨4000, [T2]⟩)] := by
      simp [groupTrades, addBet, T2, now1c2]
    unfold analyze_trades
    rw [g]
    decide
  · have g : groupTrades (now1c2 + 30) [T2] [] = some [("0xabc", ⟨4000, [T2]⟩)] := by
      simp [groupTrades, addBet, T2, now1c2]
    unfold analyze_trades
    rw [g]
    decide

/-- Witness for the amended C2: re-running the first C2 cycle from its own
final cache reproduces the identical alert for `0xabc`. -/
theorem C2_rerun_realerts_witness :
    Coherent c2fetch [] ∧
    analyze_trades now1c2 [("0xabc", [])] "mkt2" [T2] c2fetch =
      some ([sig2c], [("0xabc", [])], ["0xabc"]) := by
  have hco : Coherent c2fetch [] := by
    intro w v h
    exact Option.noConfusion h
  have h1 : analyze_trades now1c2 [] "mkt2" [T2] c2fetch =
      some ([sig2c], [("0xabc", [])], ["0xabc"]) := by
    have g : groupTrades now1c2 [T2] [] = some [("0xabc", ⟨4000, [T2]⟩)] := by
      simp [groupTrades, addBet, T2, now1c2]
    unfold analyze_trades
    rw [g]
    decide
  exact ⟨hco, C2_rerun_realerts now1c2 [] "mkt2" [T2] c2fetch
    [sig2c] [("0xabc", [])] ["0xabc"] hco h1⟩
